import Mathlib

set_option linter.unusedVariables false

/-!
Verification of the AutoPlasma inventory ledger (src/server.py).

The server keeps three SQLite relations (powders, inventory, usage_log)
and exposes endpoints that mutate them inside one ORM session each:
a request either commits all of its changes or raises an HTTPException,
in which case the session is closed uncommitted and rolled back.  We
embed the committed database state as the structure `DB` and each
endpoint as a pure function `DB → args → Except ApiError (result × DB)`:
an `.error` result models a request that raised before commit, so it
carries no successor state.

Python floats are embedded as rationals (ℚ); the arithmetic the
endpoints perform is addition, subtraction and negation only.
`DBUsageLog.timestamp` defaults to `datetime.utcnow()` at row creation;
in this sequential embedding each committed request happens strictly
later than the previous one, so timestamps are modelled by the monotone
counter `next_log_id` (each new log row gets a strictly larger
timestamp, which also serves as its autoincrement id).
-/

/-- Row of the `powders` table (class `DBPowder`, server.py lines 20-28).
The `name` column carries `unique=True`. -/
structure DBPowder where
  id : Nat
  name : String
  density : ℚ
  flow_factor : ℚ
  target_gpm : ℚ
deriving Repr, DecidableEq

/-- Row of the `inventory` table (class `DBInventory`, lines 30-35);
`powder_id` carries `unique=True`. -/
structure DBInventory where
  powder_id : Nat
  quantity_grams : ℚ
deriving Repr, DecidableEq

/-- Row of the `usage_log` table (class `DBUsageLog`, lines 37-45). -/
structure DBUsageLog where
  id : Nat
  timestamp : Nat
  powder_id : Nat
  consumed_grams : ℚ
  operator : String
  duration_sec : ℚ
deriving Repr, DecidableEq

/-- The committed database state, plus the autoincrement counters. -/
structure DB where
  powders : List DBPowder
  inventory : List DBInventory
  usage_log : List DBUsageLog
  next_powder_id : Nat
  next_log_id : Nat
deriving Repr, DecidableEq

/-- The empty database produced by `Base.metadata.create_all` (line 47). -/
def initDB : DB := ⟨[], [], [], 1, 1⟩

/-- The validation failures the endpoints can raise, named as in the
spec taxonomy (§7).  `NotFound` is the 404 "Powder not found",
`InventoryNotFound` the 404 "Inventory not found" of `log_usage`,
`InvalidResult` the 400 "Resulting stock cannot be negative",
`InsufficientStock` the 400 "Insufficient material on stock", and
`DuplicateName` the abort of `create_powder`'s first commit by the
`unique=True` constraint on `powders.name`. -/
inductive ApiError where
  | NotFound
  | InventoryNotFound
  | InvalidResult
  | InsufficientStock
  | DuplicateName
deriving Repr, DecidableEq

/-- db.query(DBPowder).filter(DBPowder.name == name).first() -/
def findPowder (db : DB) (name : String) : Option DBPowder :=
  db.powders.find? (fun p => p.name == name)

/-- db.query(DBInventory).filter(DBInventory.powder_id == pid).first() -/
def findInventory (db : DB) (pid : Nat) : Option DBInventory :=
  db.inventory.find? (fun i => i.powder_id == pid)

/-- Persisting `inv.quantity_grams = q` for the session's inventory row
of powder `pid`: the first row with that `powder_id` is overwritten, and
when no row exists the freshly `db.add`ed row is inserted (appended). -/
def setInventory : List DBInventory → Nat → ℚ → List DBInventory
  | [], pid, q => [⟨pid, q⟩]
  | i :: rest, pid, q =>
    if i.powder_id == pid then ⟨pid, q⟩ :: rest
    else i :: setInventory rest pid q

/-- The quantity `adjust_stock` reads for a powder: the inventory row's
`quantity_grams`, or the 0.0 of the row it freshly `db.add`s when none
exists (server.py lines 102-105). -/
def currentQty (db : DB) (pid : Nat) : ℚ :=
  match findInventory db pid with
  | none => 0
  | some inv => inv.quantity_grams

/-- POST /inventory/adjust/ (`adjust_stock`, server.py lines 95-121).
Looks up the powder by name (404 if absent), reads its inventory row
(creating one at 0.0 in the session if absent), rejects a negative
resulting quantity with a 400 before commit, and otherwise commits the
new quantity together with one usage_log row whose `consumed_grams` is
the negated change and whose `duration_sec` is 0.  Returns the new
quantity.  The `comment` field of the request body is ignored by the
endpoint, exactly as in the source. -/
def adjust_stock (db : DB) (powder_name : String) (quantity_change : ℚ)
    (operator comment : String) : Except ApiError (ℚ × DB) :=
  match findPowder db powder_name with
  | none => .error .NotFound
  | some powder =>
    let new_quantity := currentQty db powder.id + quantity_change
    if new_quantity < 0 then .error .InvalidResult
    else
      .ok (new_quantity,
        { db with
          inventory := setInventory db.inventory powder.id new_quantity
          usage_log := db.usage_log ++
            [⟨db.next_log_id, db.next_log_id, powder.id, -quantity_change,
              operator, 0⟩]
          next_log_id := db.next_log_id + 1 })

/-- POST /log_usage/ (`log_usage`, server.py lines 156-177).
404 if the powder is unknown, 404 if it has no inventory row, 400 if
`quantity_grams < consumed_grams`; otherwise commits the decreased
quantity together with one usage_log row recording `consumed_grams`
and the given duration, and returns the remaining quantity. -/
def log_usage (db : DB) (powder_name : String) (consumed_grams : ℚ)
    (duration_sec : ℚ) (operator : String) : Except ApiError (ℚ × DB) :=
  match findPowder db powder_name with
  | none => .error .NotFound
  | some powder =>
    match findInventory db powder.id with
    | none => .error .InventoryNotFound
    | some inv =>
      if inv.quantity_grams < consumed_grams then .error .InsufficientStock
      else
        .ok (inv.quantity_grams - consumed_grams,
          { db with
            inventory := setInventory db.inventory powder.id
              (inv.quantity_grams - consumed_grams)
            usage_log := db.usage_log ++
              [⟨db.next_log_id, db.next_log_id, powder.id, consumed_grams,
                operator, duration_sec⟩]
            next_log_id := db.next_log_id + 1 })

/-- POST /powders/ (`create_powder`, server.py lines 135-145).
The function body inserts the new row and commits; a name collision
makes that first commit abort on the `unique=True` constraint of
`powders.name` (line 23), rolling the session back — embedded as the
`DuplicateName` error.  Otherwise the powder row is committed and then
an inventory row seeded at 5000.0 g is committed for it. -/
def create_powder (db : DB) (name : String)
    (density flow_factor target_gpm : ℚ) : Except ApiError (DBPowder × DB) :=
  if db.powders.any (fun p => p.name == name) then .error .DuplicateName
  else
    let p : DBPowder := ⟨db.next_powder_id, name, density, flow_factor, target_gpm⟩
    .ok (p,
      { db with
        powders := db.powders ++ [p]
        inventory := db.inventory ++ [⟨p.id, 5000⟩]
        next_powder_id := db.next_powder_id + 1 })

/-- DELETE /powders/{name} (`delete_powder`, server.py lines 123-133).
404 if absent; otherwise deletes the powder row and, when present, its
inventory row.  Its usage_log rows are retained (and now dangle). -/
def delete_powder (db : DB) (name : String) : Except ApiError DB :=
  match findPowder db name with
  | none => .error .NotFound
  | some powder =>
    let powders' := db.powders.erase powder
    let inventory' :=
      match findInventory db powder.id with
      | none => db.inventory
      | some inv => db.inventory.erase inv
    .ok { db with powders := powders', inventory := inventory' }

/-- Python's `summary[name] += grams`, with `summary` an insertion-order
association list. -/
def addToSummary : List (String × ℚ) → String → ℚ → List (String × ℚ)
  | [], name, g => [(name, g)]
  | (n, t) :: rest, name, g =>
    if n == name then (n, t + g) :: rest else (n, t) :: addToSummary rest name g

/-- GET /stats/summary/ (`get_summary`, server.py lines 179-187).
Iterates over every usage_log row and accumulates `consumed_grams`
under `log.powder.name`.  When a row's powder has been deleted the
relationship resolves to `None` and `log.powder.name` raises an
AttributeError, embedded as the `none` result. -/
def get_summary (db : DB) : Option (List (String × ℚ)) :=
  db.usage_log.foldl
    (fun acc log =>
      match acc with
      | none => none
      | some s =>
        match db.powders.find? (fun p => p.id == log.powder_id) with
        | none => none
        | some p => some (addToSummary s p.name log.consumed_grams))
    (some [])

/-- One row of the GET /logs/ response (server.py lines 192-193). -/
structure UsageLogView where
  id : Nat
  timestamp : Nat
  powder_name : String
  consumed_grams : ℚ
  operator : String
  duration_sec : ℚ
deriving Repr, DecidableEq

/-- The inner join `query(DBUsageLog).join(DBPowder)`: usage_log rows
whose powder still exists, decorated with the powder name. -/
def joinedLogs (db : DB) : List UsageLogView :=
  db.usage_log.filterMap (fun l =>
    match db.powders.find? (fun p => p.id == l.powder_id) with
    | none => none
    | some p =>
      some ⟨l.id, l.timestamp, p.name, l.consumed_grams, l.operator, l.duration_sec⟩)

/-- Insert into a list kept in descending timestamp order. -/
def insertLogDesc (e : UsageLogView) : List UsageLogView → List UsageLogView
  | [] => [e]
  | x :: xs =>
    if x.timestamp ≤ e.timestamp then e :: x :: xs else x :: insertLogDesc e xs

/-- ORDER BY timestamp DESC, as an insertion sort. -/
def sortLogsDesc : List UsageLogView → List UsageLogView
  | [] => []
  | x :: xs => insertLogDesc x (sortLogsDesc xs)

/-- GET /logs/ (`get_logs`, server.py lines 189-193): the joined rows
ordered by timestamp descending, limited.  A pure read: it takes the
state and returns a list, leaving `DB` untouched. -/
def get_logs (db : DB) (limit : Nat) : List UsageLogView :=
  (sortLogsDesc (joinedLogs db)).take limit

/-- A client request against the mutating endpoints. -/
inductive Op where
  | create (name : String) (density flow_factor target_gpm : ℚ)
  | adjust (name : String) (delta : ℚ) (operator comment : String)
  | consume (name : String) (grams duration : ℚ) (operator : String)
  | delete (name : String)
deriving Repr, DecidableEq

/-- The committed state after one request: a failed request leaves the
database as it was (the session is closed without commit). -/
def applyOp (db : DB) : Op → DB
  | .create n d f g =>
    match create_powder db n d f g with
    | .ok (_, db') => db'
    | .error _ => db
  | .adjust n Δ oper c =>
    match adjust_stock db n Δ oper c with
    | .ok (_, db') => db'
    | .error _ => db
  | .consume n g dur oper =>
    match log_usage db n g dur oper with
    | .ok (_, db') => db'
    | .error _ => db
  | .delete n =>
    match delete_powder db n with
    | .ok db' => db'
    | .error _ => db

/-- The committed state after a sequence of requests. -/
def runOps (db : DB) (ops : List Op) : DB :=
  ops.foldl applyOp db

/-- Total `consumed_grams` recorded in a log for one powder id. -/
def consumedSum (log : List DBUsageLog) (pid : Nat) : ℚ :=
  ((log.filter (fun l => l.powder_id == pid)).map (fun l => l.consumed_grams)).sum

/-- The claim's view of the same total: each log entry changed the stock
by the negation of its stored `consumed_grams`. -/
def stockChangeSum (log : List DBUsageLog) (pid : Nat) : ℚ :=
  ((log.filter (fun l => l.powder_id == pid)).map (fun l => -l.consumed_grams)).sum

/-- Invariants that hold of every database state the endpoints can
produce from the initial (empty) database. -/
structure WF (db : DB) : Prop where
  pid_lt : ∀ p ∈ db.powders, p.id < db.next_powder_id
  inv_pid_lt : ∀ i ∈ db.inventory, i.powder_id < db.next_powder_id
  log_pid_lt : ∀ l ∈ db.usage_log, l.powder_id < db.next_powder_id
  ids_nodup : (db.powders.map (fun p => p.id)).Nodup
  inv_pids_nodup : (db.inventory.map (fun i => i.powder_id)).Nodup
  inv_exists : ∀ p ∈ db.powders, ∃ i ∈ db.inventory, i.powder_id = p.id
  qty_nonneg : ∀ i ∈ db.inventory, 0 ≤ i.quantity_grams
  conservation : ∀ p ∈ db.powders, ∀ i ∈ db.inventory, i.powder_id = p.id →
    i.quantity_grams = 5000 - consumedSum db.usage_log p.id
  ts_lt : ∀ l ∈ db.usage_log, l.timestamp < db.next_log_id
  ts_sorted : db.usage_log.Pairwise (fun a b => a.timestamp < b.timestamp)

/-- Reading the accumulated summary dictionary: the total recorded under
a name, or 0 when the name is absent. -/
def lookupTotal (s : List (String × ℚ)) (nm : String) : ℚ :=
  match s.find? (fun e => e.1 == nm) with
  | none => 0
  | some e => e.2

/-- Modelled from the spec (§4.4, Reporting Facade), for comparison with
`get_summary`: the mapping assigns to each material name the sum of
`signed_delta_grams` over all log entries of that material, positive =
consumed. -/
def spec_total_consumed (db : DB) (nm : String) : ℚ :=
  (db.usage_log.map (fun log =>
    match db.powders.find? (fun p => p.id == log.powder_id) with
    | none => 0
    | some p => if p.name = nm then log.consumed_grams else 0)).sum

/-- Shared concrete state for witnesses: one material at 0 g. -/
def dbZero : DB := ⟨[⟨1, "A", 1, 1, 1⟩], [⟨1, 0⟩], [], 2, 1⟩

/-- Shared concrete state for witnesses: one material at 5000 g. -/
def dbSample : DB := ⟨[⟨1, "Epoxy-A", 1, 1, 10⟩], [⟨1, 5000⟩], [], 2, 1⟩

/-- Concrete state for C10: a registered powder with no inventory row
(the defensive branch of `adjust_stock`, lines 102-105). -/
def dbNoInv : DB := ⟨[⟨1, "A", 1, 1, 1⟩], [], [], 2, 1⟩

/-- Concrete state for the C9 witness: one powder, two log entries (a
restock logged as −500 and a consumption of +5500). -/
def dbLogged : DB :=
  ⟨[⟨1, "Epoxy-A", 1, 1, 10⟩], [⟨1, 5000⟩],
   [⟨1, 1, 1, -500, "Alice", 0⟩, ⟨2, 2, 1, 5500, "Bob", 30⟩], 2, 3⟩

/-- Sanity check of the embedding: creating a powder seeds 5000 g. -/
theorem sanity_create :
    runOps initDB [.create "Epoxy-A" 1 1 10] =
      ⟨[⟨1, "Epoxy-A", 1, 1, 10⟩], [⟨1, 5000⟩], [], 2, 1⟩ := by decide

/-- Sanity check: a +500 g adjust raises the stock to 5500 g. -/
theorem sanity_adjust :
    (runOps initDB
      [.create "Epoxy-A" 1 1 10, .adjust "Epoxy-A" 500 "Alice" "restock"]).inventory =
      [⟨1, 5500⟩] := by
  norm_num [runOps, applyOp, adjust_stock, currentQty, create_powder, findPowder,
    findInventory, setInventory, initDB]

/-- Sanity check: the adjust is logged as −500, the consume as +5500. -/
theorem sanity_consume :
    (runOps initDB
      [.create "Epoxy-A" 1 1 10, .adjust "Epoxy-A" 500 "Alice" "restock",
       .consume "Epoxy-A" 5500 30 "Bob"]).usage_log =
      [⟨1, 1, 1, -500, "Alice", 0⟩, ⟨2, 2, 1, 5500, "Bob", 30⟩] := by
  norm_num [runOps, applyOp, adjust_stock, currentQty, log_usage, create_powder,
    findPowder, findInventory, setInventory, initDB]

/-! ### Helper lemmas about the lookup and update primitives -/

theorem findPowder_some {db : DB} {name : String} {p : DBPowder}
    (h : findPowder db name = some p) : p ∈ db.powders ∧ p.name = name := by
  refine ⟨List.mem_of_find?_eq_some h, ?_⟩
  simpa using List.find?_some h

theorem findPowder_none {db : DB} {name : String}
    (h : findPowder db name = none) : ∀ p ∈ db.powders, p.name ≠ name := by
  intro p hp
  have := List.find?_eq_none.mp h p hp
  simpa using this

theorem findInventory_some {db : DB} {pid : Nat} {inv : DBInventory}
    (h : findInventory db pid = some inv) :
    inv ∈ db.inventory ∧ inv.powder_id = pid := by
  refine ⟨List.mem_of_find?_eq_some h, ?_⟩
  simpa using List.find?_some h

theorem findInventory_none {db : DB} {pid : Nat}
    (h : findInventory db pid = none) : ∀ i ∈ db.inventory, i.powder_id ≠ pid := by
  intro i hi
  have := List.find?_eq_none.mp h i hi
  simpa using this

theorem setInventory_self (l : List DBInventory) (pid : Nat) (q : ℚ) :
    (⟨pid, q⟩ : DBInventory) ∈ setInventory l pid q := by
  induction l with
  | nil => simp [setInventory]
  | cons i rest ih =>
    by_cases hc : i.powder_id = pid
    · simp [setInventory, hc]
    · simp only [setInventory, beq_iff_eq, if_neg hc]
      exact List.mem_cons_of_mem _ ih

theorem setInventory_mem_of_ne {l : List DBInventory} {pid : Nat} {q : ℚ}
    {j : DBInventory} (hj : j ∈ l) (hne : j.powder_id ≠ pid) :
    j ∈ setInventory l pid q := by
  induction l with
  | nil => cases hj
  | cons i rest ih =>
    by_cases hc : i.powder_id = pid
    · simp only [setInventory, beq_iff_eq, if_pos hc]
      rcases List.mem_cons.mp hj with rfl | h
      · exact absurd hc hne
      · exact List.mem_cons_of_mem _ h
    · simp only [setInventory, beq_iff_eq, if_neg hc]
      rcases List.mem_cons.mp hj with rfl | h
      · exact List.mem_cons_self _ _
      · exact List.mem_cons_of_mem _ (ih h)

theorem setInventory_mem {l : List DBInventory} {pid : Nat} {q : ℚ}
    {j : DBInventory} (hj : j ∈ setInventory l pid q) :
    j = ⟨pid, q⟩ ∨ j ∈ l := by
  induction l with
  | nil => simpa [setInventory] using hj
  | cons i rest ih =>
    by_cases hc : i.powder_id = pid
    · simp only [setInventory, beq_iff_eq, if_pos hc] at hj
      rcases List.mem_cons.mp hj with rfl | h
      · exact Or.inl rfl
      · exact Or.inr (List.mem_cons_of_mem _ h)
    · simp only [setInventory, beq_iff_eq, if_neg hc] at hj
      rcases List.mem_cons.mp hj with rfl | h
      · exact Or.inr (List.mem_cons_self _ _)
      · rcases ih h with h' | h'
        · exact Or.inl h'
        · exact Or.inr (List.mem_cons_of_mem _ h')

theorem setInventory_mem_nodup {l : List DBInventory} {pid : Nat} {q : ℚ}
    (hnd : (l.map (fun i => i.powder_id)).Nodup)
    {j : DBInventory} (hj : j ∈ setInventory l pid q) :
    (j.powder_id = pid ∧ j.quantity_grams = q) ∨ (j ∈ l ∧ j.powder_id ≠ pid) := by
  induction l with
  | nil =>
    simp [setInventory] at hj
    subst hj
    exact Or.inl ⟨rfl, rfl⟩
  | cons i rest ih =>
    simp only [List.map_cons, List.nodup_cons] at hnd
    by_cases hc : i.powder_id = pid
    · simp only [setInventory, beq_iff_eq, if_pos hc] at hj
      rcases List.mem_cons.mp hj with rfl | h
      · exact Or.inl ⟨rfl, rfl⟩
      · refine Or.inr ⟨List.mem_cons_of_mem _ h, ?_⟩
        intro hpid
        exact hnd.1 (by
          subst hc
          exact List.mem_map.mpr ⟨j, h, hpid⟩)
    · simp only [setInventory, beq_iff_eq, if_neg hc] at hj
      rcases List.mem_cons.mp hj with rfl | h
      · exact Or.inr ⟨List.mem_cons_self _ _, hc⟩
      · rcases ih hnd.2 h with h' | h'
        · exact Or.inl h'
        · exact Or.inr ⟨List.mem_cons_of_mem _ h'.1, h'.2⟩

theorem setInventory_map_of_mem {l : List DBInventory} {pid : Nat} (q : ℚ)
    (h : pid ∈ l.map (fun i => i.powder_id)) :
    (setInventory l pid q).map (fun i => i.powder_id) =
      l.map (fun i => i.powder_id) := by
  induction l with
  | nil => cases h
  | cons i rest ih =>
    by_cases hc : i.powder_id = pid
    · simp [setInventory, hc]
    · simp only [List.map_cons, List.mem_cons] at h
      rcases h with h | h
      · exact absurd h.symm hc
      · simp only [setInventory, beq_iff_eq, if_neg hc, List.map_cons, ih h]

theorem setInventory_of_not_mem {l : List DBInventory} {pid : Nat} (q : ℚ)
    (h : ∀ i ∈ l, i.powder_id ≠ pid) :
    setInventory l pid q = l ++ [⟨pid, q⟩] := by
  induction l with
  | nil => simp [setInventory]
  | cons i rest ih =>
    have hc : i.powder_id ≠ pid := h i (List.mem_cons_self _ _)
    simp only [setInventory, beq_iff_eq, if_neg hc, List.cons_append]
    exact congrArg _ (ih (fun j hj => h j (List.mem_cons_of_mem _ hj)))

theorem setInventory_nodup {l : List DBInventory} {pid : Nat} {q : ℚ}
    (hnd : (l.map (fun i => i.powder_id)).Nodup) :
    ((setInventory l pid q).map (fun i => i.powder_id)).Nodup := by
  by_cases h : pid ∈ l.map (fun i => i.powder_id)
  · rw [setInventory_map_of_mem q h]; exact hnd
  · have h' : ∀ i ∈ l, i.powder_id ≠ pid := by
      intro i hi hEq
      exact h (List.mem_map.mpr ⟨i, hi, hEq⟩)
    rw [setInventory_of_not_mem q h']
    simp only [List.map_append, List.map_cons, List.map_nil]
    rw [List.nodup_append]
    refine ⟨hnd, List.nodup_singleton _, ?_⟩
    intro x hx hx'
    simp only [List.mem_singleton] at hx'
    subst hx'
    exact h hx

theorem find?_setInventory_self (l : List DBInventory) (pid : Nat) (q : ℚ) :
    (setInventory l pid q).find? (fun i => i.powder_id == pid) = some ⟨pid, q⟩ := by
  induction l with
  | nil => simp [setInventory]
  | cons i rest ih =>
    by_cases hc : i.powder_id = pid
    · simp [setInventory, hc]
    · simp only [setInventory, beq_iff_eq, if_neg hc]
      rw [List.find?_cons_of_neg _ (by simpa using hc)]
      exact ih

/-! ### Sums over the usage log -/

theorem stockChangeSum_eq_neg (log : List DBUsageLog) (pid : Nat) :
    stockChangeSum log pid = -consumedSum log pid := by
  unfold stockChangeSum consumedSum
  induction (log.filter (fun l => l.powder_id == pid)) with
  | nil => simp
  | cons e rest ih => simp [ih]; ring

theorem consumedSum_append (log : List DBUsageLog) (e : DBUsageLog) (pid : Nat) :
    consumedSum (log ++ [e]) pid =
      consumedSum log pid + (if e.powder_id = pid then e.consumed_grams else 0) := by
  unfold consumedSum
  rw [List.filter_append]
  by_cases hc : e.powder_id = pid
  · simp [hc]
  · simp [hc]

/-! ### Inversion lemmas: what a successful endpoint call tells us -/

theorem adjust_stock_ok {db db' : DB} {n oper c : String} {q Δ : ℚ}
    (h : adjust_stock db n Δ oper c = .ok (q, db')) :
    ∃ p, findPowder db n = some p ∧ 0 ≤ currentQty db p.id + Δ ∧
      q = currentQty db p.id + Δ ∧
      db' = { db with
        inventory := setInventory db.inventory p.id (currentQty db p.id + Δ)
        usage_log := db.usage_log ++
          [⟨db.next_log_id, db.next_log_id, p.id, -Δ, oper, 0⟩]
        next_log_id := db.next_log_id + 1 } := by
  unfold adjust_stock at h
  split at h
  · cases h
  next p hfp =>
    simp only [] at h
    split at h
    · cases h
    next hneg =>
      simp only [Except.ok.injEq, Prod.mk.injEq] at h
      exact ⟨p, hfp, not_lt.mp hneg, h.1.symm, h.2.symm⟩

theorem log_usage_ok {db db' : DB} {n oper : String} {q g dur : ℚ}
    (h : log_usage db n g dur oper = .ok (q, db')) :
    ∃ p inv, findPowder db n = some p ∧ findInventory db p.id = some inv ∧
      ¬ inv.quantity_grams < g ∧ q = inv.quantity_grams - g ∧
      db' = { db with
        inventory := setInventory db.inventory p.id (inv.quantity_grams - g)
        usage_log := db.usage_log ++
          [⟨db.next_log_id, db.next_log_id, p.id, g, oper, dur⟩]
        next_log_id := db.next_log_id + 1 } := by
  unfold log_usage at h
  split at h
  · cases h
  next p hfp =>
    split at h
    · cases h
    next inv hfi =>
      split at h
      · cases h
      next hlt =>
        simp only [Except.ok.injEq, Prod.mk.injEq] at h
        exact ⟨p, inv, hfp, hfi, hlt, h.1.symm, h.2.symm⟩

theorem create_powder_ok {db db' : DB} {name : String} {d f g : ℚ} {p : DBPowder}
    (h : create_powder db name d f g = .ok (p, db')) :
    db.powders.any (fun q => q.name == name) = false ∧
      p = ⟨db.next_powder_id, name, d, f, g⟩ ∧
      db' = { db with
        powders := db.powders ++ [⟨db.next_powder_id, name, d, f, g⟩]
        inventory := db.inventory ++ [⟨db.next_powder_id, 5000⟩]
        next_powder_id := db.next_powder_id + 1 } := by
  unfold create_powder at h
  split at h
  · cases h
  next hdup =>
    simp only [Except.ok.injEq, Prod.mk.injEq] at h
    exact ⟨Bool.of_not_eq_true hdup, h.1.symm, h.2.symm⟩

theorem delete_powder_ok {db db' : DB} {name : String}
    (h : delete_powder db name = .ok db') :
    ∃ powder, findPowder db name = some powder ∧
      db'.powders = db.powders.erase powder ∧
      db'.usage_log = db.usage_log ∧
      db'.next_powder_id = db.next_powder_id ∧
      db'.next_log_id = db.next_log_id ∧
      ((findInventory db powder.id = none ∧ db'.inventory = db.inventory) ∨
       (∃ inv, findInventory db powder.id = some inv ∧
          db'.inventory = db.inventory.erase inv)) := by
  unfold delete_powder at h
  split at h
  · cases h
  next powder hfp =>
    simp only [Except.ok.injEq] at h
    subst h
    refine ⟨powder, hfp, rfl, rfl, rfl, rfl, ?_⟩
    cases hfi : findInventory db powder.id with
    | none => exact Or.inl ⟨rfl, by simp [hfi]⟩
    | some inv => exact Or.inr ⟨inv, rfl, by simp [hfi]⟩

theorem findInventory_of_mem_nodup {db : DB} {i : DBInventory} {pid : Nat}
    (hnd : (db.inventory.map (fun j => j.powder_id)).Nodup)
    (hi : i ∈ db.inventory) (hpid : i.powder_id = pid) :
    findInventory db pid = some i := by
  have hsome : (db.inventory.find? (fun j => j.powder_id == pid)).isSome := by
    rw [List.find?_isSome]
    exact ⟨i, hi, by simpa using hpid⟩
  obtain ⟨j, hj⟩ := Option.isSome_iff_exists.mp hsome
  have hjm := List.mem_of_find?_eq_some hj
  have hjp : j.powder_id = pid := by simpa using List.find?_some hj
  have hji : j = i := List.inj_on_of_nodup_map hnd hjm hi (by rw [hjp, hpid])
  rw [findInventory, hj, hji]

theorem consumedSum_eq_zero {log : List DBUsageLog} {pid : Nat}
    (h : ∀ l ∈ log, l.powder_id ≠ pid) : consumedSum log pid = 0 := by
  unfold consumedSum
  have : log.filter (fun l => l.powder_id == pid) = [] := by
    rw [List.filter_eq_nil_iff]
    intro l hl
    simpa using h l hl
  rw [this]
  simp

/-! ### The reachable-state invariant -/

theorem WF_initDB : WF initDB := by
  constructor <;> simp [initDB]

theorem WF_adjust {db db' : DB} {n oper c : String} {q Δ : ℚ}
    (wf : WF db) (h : adjust_stock db n Δ oper c = .ok (q, db')) : WF db' := by
  obtain ⟨p, hfp, hnn, hq, rfl⟩ := adjust_stock_ok h
  obtain ⟨hp, hpname⟩ := findPowder_some hfp
  obtain ⟨i0, hi0, hi0pid⟩ := wf.inv_exists p hp
  have hfi : findInventory db p.id = some i0 :=
    findInventory_of_mem_nodup wf.inv_pids_nodup hi0 hi0pid
  have hcur : currentQty db p.id = i0.quantity_grams := by
    simp [currentQty, hfi]
  constructor
  · exact wf.pid_lt
  · intro i hi
    rcases setInventory_mem hi with rfl | hi'
    · exact wf.pid_lt p hp
    · exact wf.inv_pid_lt i hi'
  · intro l hl
    rcases List.mem_append.mp hl with hl | hl
    · exact wf.log_pid_lt l hl
    · simp only [List.mem_singleton] at hl
      subst hl
      exact wf.pid_lt p hp
  · exact wf.ids_nodup
  · exact setInventory_nodup wf.inv_pids_nodup
  · intro p' hp'
    by_cases hid : p'.id = p.id
    · exact ⟨⟨p.id, currentQty db p.id + Δ⟩, setInventory_self _ _ _, hid.symm⟩
    · obtain ⟨i, hi, hipid⟩ := wf.inv_exists p' hp'
      exact ⟨i, setInventory_mem_of_ne hi (by rw [hipid]; exact hid), hipid⟩
  · intro i hi
    rcases setInventory_mem hi with rfl | hi'
    · exact hnn
    · exact wf.qty_nonneg i hi'
  · intro p' hp' i hi hipid
    have hsum := consumedSum_append db.usage_log
      ⟨db.next_log_id, db.next_log_id, p.id, -Δ, oper, 0⟩ p'.id
    rcases setInventory_mem_nodup wf.inv_pids_nodup hi with ⟨hpid, hqty⟩ | ⟨hi', hipid'⟩
    · have hpp : p'.id = p.id := by rw [← hipid, hpid]
      have hold : i0.quantity_grams = 5000 - consumedSum db.usage_log p'.id :=
        wf.conservation p' hp' i0 hi0 (by rw [hi0pid, hpp])
      rw [hqty, hcur, hold, hsum, hpp]
      rw [if_pos rfl]
      ring
    · have hpp : p'.id ≠ p.id := by
        intro hh
        exact hipid' (hipid.trans hh)
      have hold := wf.conservation p' hp' i hi' hipid
      rw [hold, hsum, if_neg (fun hh => hpp (Eq.symm hh))]
      ring
  · intro l hl
    rcases List.mem_append.mp hl with hl | hl
    · exact Nat.lt_succ_of_lt (wf.ts_lt l hl)
    · simp only [List.mem_singleton] at hl
      subst hl
      exact Nat.lt_succ_self _
  · rw [List.pairwise_append]
    refine ⟨wf.ts_sorted, List.pairwise_singleton _ _, ?_⟩
    intro a ha b hb
    simp only [List.mem_singleton] at hb
    subst hb
    exact wf.ts_lt a ha

theorem WF_consume {db db' : DB} {n oper : String} {q g dur : ℚ}
    (wf : WF db) (h : log_usage db n g dur oper = .ok (q, db')) : WF db' := by
  obtain ⟨p, inv, hfp, hfi, hnlt, hq, rfl⟩ := log_usage_ok h
  obtain ⟨hp, hpname⟩ := findPowder_some hfp
  obtain ⟨hinv, hinvpid⟩ := findInventory_some hfi
  constructor
  · exact wf.pid_lt
  · intro i hi
    rcases setInventory_mem hi with rfl | hi'
    · exact wf.pid_lt p hp
    · exact wf.inv_pid_lt i hi'
  · intro l hl
    rcases List.mem_append.mp hl with hl | hl
    · exact wf.log_pid_lt l hl
    · simp only [List.mem_singleton] at hl
      subst hl
      exact wf.pid_lt p hp
  · exact wf.ids_nodup
  · exact setInventory_nodup wf.inv_pids_nodup
  · intro p' hp'
    by_cases hid : p'.id = p.id
    · exact ⟨⟨p.id, inv.quantity_grams - g⟩, setInventory_self _ _ _, hid.symm⟩
    · obtain ⟨i, hi, hipid⟩ := wf.inv_exists p' hp'
      exact ⟨i, setInventory_mem_of_ne hi (by rw [hipid]; exact hid), hipid⟩
  · intro i hi
    rcases setInventory_mem hi with rfl | hi'
    · exact sub_nonneg.mpr (not_lt.mp hnlt)
    · exact wf.qty_nonneg i hi'
  · intro p' hp' i hi hipid
    have hsum := consumedSum_append db.usage_log
      ⟨db.next_log_id, db.next_log_id, p.id, g, oper, dur⟩ p'.id
    rcases setInventory_mem_nodup wf.inv_pids_nodup hi with ⟨hpid, hqty⟩ | ⟨hi', hipid'⟩
    · have hpp : p'.id = p.id := by rw [← hipid, hpid]
      have hold : inv.quantity_grams = 5000 - consumedSum db.usage_log p'.id :=
        wf.conservation p' hp' inv hinv (by rw [hinvpid, hpp])
      rw [hqty, hold, hsum, hpp]
      rw [if_pos rfl]
      ring
    · have hpp : p'.id ≠ p.id := by
        intro hh
        exact hipid' (hipid.trans hh)
      have hold := wf.conservation p' hp' i hi' hipid
      rw [hold, hsum, if_neg (fun hh => hpp (Eq.symm hh))]
      ring
  · intro l hl
    rcases List.mem_append.mp hl with hl | hl
    · exact Nat.lt_succ_of_lt (wf.ts_lt l hl)
    · simp only [List.mem_singleton] at hl
      subst hl
      exact Nat.lt_succ_self _
  · rw [List.pairwise_append]
    refine ⟨wf.ts_sorted, List.pairwise_singleton _ _, ?_⟩
    intro a ha b hb
    simp only [List.mem_singleton] at hb
    subst hb
    exact wf.ts_lt a ha

theorem WF_create {db db' : DB} {name : String} {d f g : ℚ} {p : DBPowder}
    (wf : WF db) (h : create_powder db name d f g = .ok (p, db')) : WF db' := by
  obtain ⟨hdup, hp, rfl⟩ := create_powder_ok h
  constructor
  · intro p' hp'
    rcases List.mem_append.mp hp' with hp' | hp'
    · exact Nat.lt_succ_of_lt (wf.pid_lt p' hp')
    · simp only [List.mem_singleton] at hp'
      subst hp'
      exact Nat.lt_succ_self _
  · intro i hi
    rcases List.mem_append.mp hi with hi | hi
    · exact Nat.lt_succ_of_lt (wf.inv_pid_lt i hi)
    · simp only [List.mem_singleton] at hi
      subst hi
      exact Nat.lt_succ_self _
  · intro l hl
    exact Nat.lt_succ_of_lt (wf.log_pid_lt l hl)
  · rw [List.map_append, List.map_singleton, List.nodup_append]
    refine ⟨wf.ids_nodup, List.nodup_singleton _, ?_⟩
    intro x hx hx'
    simp only [List.mem_singleton] at hx'
    subst hx'
    obtain ⟨p0, hp0, hp0id⟩ := List.mem_map.mp hx
    have hlt := wf.pid_lt p0 hp0
    rw [hp0id] at hlt
    exact lt_irrefl _ hlt
  · rw [List.map_append, List.map_singleton, List.nodup_append]
    refine ⟨wf.inv_pids_nodup, List.nodup_singleton _, ?_⟩
    intro x hx hx'
    simp only [List.mem_singleton] at hx'
    subst hx'
    obtain ⟨i0, hi0, hi0id⟩ := List.mem_map.mp hx
    have hlt := wf.inv_pid_lt i0 hi0
    rw [hi0id] at hlt
    exact lt_irrefl _ hlt
  · intro p' hp'
    rcases List.mem_append.mp hp' with hp' | hp'
    · obtain ⟨i, hi, hipid⟩ := wf.inv_exists p' hp'
      exact ⟨i, List.mem_append_left _ hi, hipid⟩
    · simp only [List.mem_singleton] at hp'
      subst hp'
      exact ⟨⟨db.next_powder_id, 5000⟩,
        List.mem_append_right _ (List.mem_singleton_self _), rfl⟩
  · intro i hi
    rcases List.mem_append.mp hi with hi | hi
    · exact wf.qty_nonneg i hi
    · simp only [List.mem_singleton] at hi
      subst hi
      norm_num
  · intro p' hp' i hi hipid
    rcases List.mem_append.mp hp' with hp' | hp'
    · rcases List.mem_append.mp hi with hi | hi
      · exact wf.conservation p' hp' i hi hipid
      · simp only [List.mem_singleton] at hi
        subst hi
        have hlt := wf.pid_lt p' hp'
        have hx : db.next_powder_id = p'.id := hipid
        rw [← hx] at hlt
        exact absurd hlt (lt_irrefl _)
    · simp only [List.mem_singleton] at hp'
      subst hp'
      rcases List.mem_append.mp hi with hi | hi
      · have hlt := wf.inv_pid_lt i hi
        have hx : i.powder_id = db.next_powder_id := hipid
        rw [hx] at hlt
        exact absurd hlt (lt_irrefl _)
      · simp only [List.mem_singleton] at hi
        subst hi
        have hz : consumedSum db.usage_log db.next_powder_id = 0 := by
          apply consumedSum_eq_zero
          intro l hl hEq
          have hlt := wf.log_pid_lt l hl
          rw [hEq] at hlt
          exact lt_irrefl _ hlt
        show (5000 : ℚ) = 5000 - consumedSum db.usage_log db.next_powder_id
        rw [hz]
        norm_num
  · exact wf.ts_lt
  · exact wf.ts_sorted

theorem WF_delete {db db' : DB} {name : String}
    (wf : WF db) (h : delete_powder db name = .ok db') : WF db' := by
  obtain ⟨powder, hfp, hpw, hlog, hnpid, hnlid, hinvcase⟩ := delete_powder_ok h
  obtain ⟨hpmem, hpname⟩ := findPowder_some hfp
  have hsubP : ∀ p ∈ db'.powders, p ∈ db.powders := by
    intro p hp
    rw [hpw] at hp
    exact List.mem_of_mem_erase hp
  have hsubI : ∀ i ∈ db'.inventory, i ∈ db.inventory := by
    rcases hinvcase with ⟨_, hinv⟩ | ⟨inv, hfi, hinv⟩
    · intro i hi
      rw [hinv] at hi
      exact hi
    · intro i hi
      rw [hinv] at hi
      exact List.mem_of_mem_erase hi
  have hPnodup : db.powders.Nodup := List.Nodup.of_map _ wf.ids_nodup
  have hidne : ∀ p' ∈ db'.powders, p'.id ≠ powder.id := by
    intro p' hp' hEq
    rw [hpw] at hp'
    have hne : p' ≠ powder := ((List.Nodup.mem_erase_iff hPnodup).mp hp').1
    exact hne (List.inj_on_of_nodup_map wf.ids_nodup
      (List.mem_of_mem_erase hp') hpmem hEq)
  constructor
  · intro p hp
    rw [hnpid]
    exact wf.pid_lt p (hsubP p hp)
  · intro i hi
    rw [hnpid]
    exact wf.inv_pid_lt i (hsubI i hi)
  · intro l hl
    rw [hnpid]
    rw [hlog] at hl
    exact wf.log_pid_lt l hl
  · rw [hpw]
    exact List.Nodup.sublist (List.Sublist.map _ (List.erase_sublist _ _)) wf.ids_nodup
  · rcases hinvcase with ⟨_, hinv⟩ | ⟨inv, hfi, hinv⟩
    · rw [hinv]
      exact wf.inv_pids_nodup
    · rw [hinv]
      exact List.Nodup.sublist (List.Sublist.map _ (List.erase_sublist _ _))
        wf.inv_pids_nodup
  · intro p' hp'
    obtain ⟨i, hi, hipid⟩ := wf.inv_exists p' (hsubP p' hp')
    have hne : i.powder_id ≠ powder.id := by
      rw [hipid]
      exact hidne p' hp'
    rcases hinvcase with ⟨hfiN, hinv⟩ | ⟨inv, hfi, hinv⟩
    · refine ⟨i, ?_, hipid⟩
      rw [hinv]
      exact hi
    · refine ⟨i, ?_, hipid⟩
      rw [hinv]
      have hinvpid : inv.powder_id = powder.id := (findInventory_some hfi).2
      have hii : i ≠ inv := fun hh => hne (by rw [hh, hinvpid])
      exact (List.mem_erase_of_ne hii).mpr hi
  · intro i hi
    exact wf.qty_nonneg i (hsubI i hi)
  · intro p' hp' i hi hipid
    rw [hlog]
    exact wf.conservation p' (hsubP p' hp') i (hsubI i hi) hipid
  · intro l hl
    rw [hnlid]
    rw [hlog] at hl
    exact wf.ts_lt l hl
  · rw [hlog]
    exact wf.ts_sorted

theorem WF_applyOp {db : DB} (wf : WF db) (op : Op) : WF (applyOp db op) := by
  cases op with
  | create n d f g =>
    cases h : create_powder db n d f g with
    | ok r =>
      obtain ⟨p, db'⟩ := r
      simpa only [applyOp, h] using WF_create wf h
    | error e => simpa only [applyOp, h] using wf
  | adjust n Δ oper c =>
    cases h : adjust_stock db n Δ oper c with
    | ok r =>
      obtain ⟨q, db'⟩ := r
      simpa only [applyOp, h] using WF_adjust wf h
    | error e => simpa only [applyOp, h] using wf
  | consume n g dur oper =>
    cases h : log_usage db n g dur oper with
    | ok r =>
      obtain ⟨q, db'⟩ := r
      simpa only [applyOp, h] using WF_consume wf h
    | error e => simpa only [applyOp, h] using wf
  | delete n =>
    cases h : delete_powder db n with
    | ok db' => simpa only [applyOp, h] using WF_delete wf h
    | error e => simpa only [applyOp, h] using wf

theorem WF_runOps_of {db : DB} (wf : WF db) (ops : List Op) : WF (runOps db ops) := by
  induction ops generalizing db with
  | nil => exact wf
  | cons op rest ih => exact ih (WF_applyOp wf op)

theorem WF_runOps (ops : List Op) : WF (runOps initDB ops) :=
  WF_runOps_of WF_initDB ops

/-! ### Sorting lemmas for GET /logs/ -/

theorem insertLogDesc_of_lt {e : UsageLogView} {l : List UsageLogView}
    (h : ∀ x ∈ l, e.timestamp < x.timestamp) : insertLogDesc e l = l ++ [e] := by
  induction l with
  | nil => rfl
  | cons x xs ih =>
    have hx : e.timestamp < x.timestamp := h x (List.mem_cons_self _ _)
    rw [insertLogDesc, if_neg (by omega)]
    rw [List.cons_append]
    exact congrArg _ (ih (fun y hy => h y (List.mem_cons_of_mem _ hy)))

theorem sortLogsDesc_of_sorted {l : List UsageLogView}
    (h : l.Pairwise (fun a b => a.timestamp < b.timestamp)) :
    sortLogsDesc l = l.reverse := by
  induction l with
  | nil => rfl
  | cons x xs ih =>
    rw [sortLogsDesc, ih (List.Pairwise.of_cons h),
      insertLogDesc_of_lt (fun y hy => (List.pairwise_cons.mp h).1 y
        (List.mem_reverse.mp hy))]
    simp

theorem joinedLogs_pairwise {db : DB}
    (h : db.usage_log.Pairwise (fun a b => a.timestamp < b.timestamp)) :
    (joinedLogs db).Pairwise (fun a b => a.timestamp < b.timestamp) := by
  unfold joinedLogs
  refine List.Pairwise.filterMap _ ?_ h
  intro a a' hlt b hb b' hb'
  have hbts : b.timestamp = a.timestamp := by
    cases hfa : db.powders.find? (fun p => p.id == a.powder_id) with
    | none => rw [hfa] at hb; cases hb
    | some p =>
      rw [hfa] at hb
      cases hb
      rfl
  have hbts' : b'.timestamp = a'.timestamp := by
    cases hfa : db.powders.find? (fun p => p.id == a'.powder_id) with
    | none => rw [hfa] at hb'; cases hb'
    | some p =>
      rw [hfa] at hb'
      cases hb'
      rfl
  rw [hbts, hbts']
  exact hlt

/-! ### The claims -/

/-- C1 (Conservation): after any sequence of requests starting from the
empty database, every material's stored quantity equals the 5000 g seed
plus the sum, over its usage_log entries, of the negation of the stored
`consumed_grams` (the consumption-sign convention inverted back into a
stock change). -/
theorem claim_conservation (ops : List Op) (p : DBPowder) (inv : DBInventory)
    (hp : p ∈ (runOps initDB ops).powders)
    (hi : inv ∈ (runOps initDB ops).inventory)
    (hpid : inv.powder_id = p.id) :
    inv.quantity_grams =
      5000 + stockChangeSum (runOps initDB ops).usage_log p.id := by
  have wf := WF_runOps ops
  rw [stockChangeSum_eq_neg, wf.conservation p hp inv hi hpid]
  ring

/-- Witness for C1 at a concrete request sequence. -/
theorem claim_conservation_witness :
    (⟨1, 5000⟩ : DBInventory).quantity_grams =
      5000 + stockChangeSum (runOps initDB [.create "Epoxy-A" 1 1 10]).usage_log
        (⟨1, "Epoxy-A", 1, 1, 10⟩ : DBPowder).id :=
  claim_conservation [.create "Epoxy-A" 1 1 10] ⟨1, "Epoxy-A", 1, 1, 10⟩ ⟨1, 5000⟩
    (by decide) (by decide) (by decide)

/-- C2 (Non-negativity): every reachable inventory quantity is ≥ 0, and
an adjust or consume whose resulting quantity would be negative is
rejected in full — `InvalidResult` for adjust, `InsufficientStock` for
consume — leaving the whole state unchanged. -/
theorem claim_nonneg :
    (∀ ops : List Op, ∀ i ∈ (runOps initDB ops).inventory, 0 ≤ i.quantity_grams)
    ∧ (∀ (db : DB) (n oper c : String) (Δ : ℚ) (p : DBPowder),
        findPowder db n = some p → currentQty db p.id + Δ < 0 →
        adjust_stock db n Δ oper c = .error .InvalidResult ∧
          applyOp db (.adjust n Δ oper c) = db)
    ∧ (∀ (db : DB) (n oper : String) (g dur : ℚ) (p : DBPowder) (inv : DBInventory),
        findPowder db n = some p → findInventory db p.id = some inv →
        inv.quantity_grams - g < 0 →
        log_usage db n g dur oper = .error .InsufficientStock ∧
          applyOp db (.consume n g dur oper) = db) := by
  refine ⟨?_, ?_, ?_⟩
  · intro ops i hi
    exact (WF_runOps ops).qty_nonneg i hi
  · intro db n oper c Δ p hfp hneg
    have herr : adjust_stock db n Δ oper c = .error .InvalidResult := by
      unfold adjust_stock
      rw [hfp]
      simp only []
      rw [if_pos hneg]
    exact ⟨herr, by simp [applyOp, herr]⟩
  · intro db n oper g dur p inv hfp hfi hneg
    have herr : log_usage db n g dur oper = .error .InsufficientStock := by
      unfold log_usage
      rw [hfp]
      simp only []
      rw [hfi]
      simp only []
      rw [if_pos (sub_neg.mp hneg)]
    exact ⟨herr, by simp [applyOp, herr]⟩

/-- Witness for C2: an adjust of −1 g on a material at 0 g is rejected
with `InvalidResult` and changes nothing. -/
theorem claim_nonneg_witness :
    adjust_stock dbZero "A" (-1) "Carol" "oops" = .error .InvalidResult ∧
      applyOp dbZero (.adjust "A" (-1) "Carol" "oops") = dbZero :=
  claim_nonneg.2.1 dbZero "A" "Carol" "oops" (-1) ⟨1, "A", 1, 1, 1⟩ (by decide)
    (lt_of_eq_of_lt (zero_add _) (by decide))

/-- C3 (Failure atomicity): a mutating request that reports any error
leaves the committed database — stock quantities and event log included
— exactly as it was. -/
theorem claim_atomicity :
    (∀ (db : DB) (n oper c : String) (Δ : ℚ) (e : ApiError),
      adjust_stock db n Δ oper c = .error e →
        applyOp db (.adjust n Δ oper c) = db)
    ∧ (∀ (db : DB) (n oper : String) (g dur : ℚ) (e : ApiError),
      log_usage db n g dur oper = .error e →
        applyOp db (.consume n g dur oper) = db) := by
  constructor
  · intro db n oper c Δ e h
    simp [applyOp, h]
  · intro db n oper g dur e h
    simp [applyOp, h]

/-- Witness for C3: a failing adjust (unknown powder) on the empty
database leaves it unchanged. -/
theorem claim_atomicity_witness :
    applyOp initDB (.adjust "X" 1 "op" "") = initDB :=
  claim_atomicity.1 initDB "X" "op" "" 1 .NotFound rfl

/-- C4 (Adjust success): a successful adjust on a registered material
with inventory row `inv` and `0 ≤ inv.quantity_grams + Δ` returns the
new quantity, stores it, and appends exactly one log entry whose
`consumed_grams` is the negated delta and whose duration is 0. -/
theorem claim_adjust_success (db : DB) (n oper c : String) (Δ : ℚ)
    (p : DBPowder) (inv : DBInventory)
    (hfp : findPowder db n = some p)
    (hfi : findInventory db p.id = some inv)
    (hnn : 0 ≤ inv.quantity_grams + Δ) :
    adjust_stock db n Δ oper c =
      .ok (inv.quantity_grams + Δ,
        { db with
          inventory := setInventory db.inventory p.id (inv.quantity_grams + Δ)
          usage_log := db.usage_log ++
            [⟨db.next_log_id, db.next_log_id, p.id, -Δ, oper, 0⟩]
          next_log_id := db.next_log_id + 1 }) ∧
      findInventory
        { db with
          inventory := setInventory db.inventory p.id (inv.quantity_grams + Δ)
          usage_log := db.usage_log ++
            [⟨db.next_log_id, db.next_log_id, p.id, -Δ, oper, 0⟩]
          next_log_id := db.next_log_id + 1 } p.id =
        some ⟨p.id, inv.quantity_grams + Δ⟩ := by
  have hcur : currentQty db p.id = inv.quantity_grams := by
    simp [currentQty, hfi]
  constructor
  · unfold adjust_stock
    rw [hfp]
    simp only []
    rw [hcur, if_neg (not_lt.mpr hnn)]
  · exact find?_setInventory_self db.inventory p.id (inv.quantity_grams + Δ)

/-- Witness for C4: restocking 500 g onto 5000 g succeeds, returns the
sum and logs consumed_grams = −500 with duration 0. -/
theorem claim_adjust_success_witness :
    adjust_stock dbSample "Epoxy-A" 500 "Alice" "restock" =
      .ok ((5000 : ℚ) + 500,
        { dbSample with
          inventory := setInventory dbSample.inventory 1 ((5000 : ℚ) + 500)
          usage_log := dbSample.usage_log ++ [⟨1, 1, 1, -500, "Alice", 0⟩]
          next_log_id := 2 }) ∧
      findInventory
        { dbSample with
          inventory := setInventory dbSample.inventory 1 ((5000 : ℚ) + 500)
          usage_log := dbSample.usage_log ++ [⟨1, 1, 1, -500, "Alice", 0⟩]
          next_log_id := 2 } 1 =
        some ⟨1, (5000 : ℚ) + 500⟩ :=
  claim_adjust_success dbSample "Epoxy-A" "Alice" "restock" 500
    ⟨1, "Epoxy-A", 1, 1, 10⟩ ⟨1, 5000⟩ (by decide) (by decide)
    (add_nonneg (by decide) (by decide))

/-- C5 (Consume gate and postcondition): consume fails `NotFound` for an
unknown material; for a material with an inventory row it fails
`InsufficientStock` exactly when the current quantity is below the
requested grams (consuming the full stock succeeds), and otherwise
stores `current − grams`, appends exactly one log entry with
`consumed_grams = +grams` and the given duration, and returns the
remaining quantity. -/
theorem claim_consume (db : DB) :
    (∀ (n oper : String) (g dur : ℚ), findPowder db n = none →
       log_usage db n g dur oper = .error .NotFound)
    ∧ (∀ (n oper : String) (g dur : ℚ) (p : DBPowder) (inv : DBInventory),
        findPowder db n = some p → findInventory db p.id = some inv →
        (log_usage db n g dur oper = .error .InsufficientStock ↔
          inv.quantity_grams < g))
    ∧ (∀ (n oper : String) (g dur : ℚ) (p : DBPowder) (inv : DBInventory),
        findPowder db n = some p → findInventory db p.id = some inv →
        g ≤ inv.quantity_grams →
        log_usage db n g dur oper =
          .ok (inv.quantity_grams - g,
            { db with
              inventory := setInventory db.inventory p.id (inv.quantity_grams - g)
              usage_log := db.usage_log ++
                [⟨db.next_log_id, db.next_log_id, p.id, g, oper, dur⟩]
              next_log_id := db.next_log_id + 1 })) := by
  refine ⟨?_, ?_, ?_⟩
  · intro n oper g dur hfp
    unfold log_usage
    rw [hfp]
  · intro n oper g dur p inv hfp hfi
    unfold log_usage
    rw [hfp]
    simp only []
    rw [hfi]
    simp only []
    by_cases hlt : inv.quantity_grams < g
    · rw [if_pos hlt]
      simp [hlt]
    · rw [if_neg hlt]
      simp [hlt]
  · intro n oper g dur p inv hfp hfi hle
    unfold log_usage
    rw [hfp]
    simp only []
    rw [hfi]
    simp only []
    rw [if_neg (not_lt.mpr hle)]

/-- Witness for C5: consuming exactly the full 5000 g stock succeeds and
leaves 5000 − 5000 g. -/
theorem claim_consume_witness :
    log_usage dbSample "Epoxy-A" 5000 30 "Bob" =
      .ok ((5000 : ℚ) - 5000,
        { dbSample with
          inventory := setInventory dbSample.inventory 1 ((5000 : ℚ) - 5000)
          usage_log := dbSample.usage_log ++ [⟨1, 1, 1, 5000, "Bob", 30⟩]
          next_log_id := 2 }) :=
  (claim_consume dbSample).2.2 "Epoxy-A" "Bob" 5000 30 ⟨1, "Epoxy-A", 1, 1, 10⟩
    ⟨1, 5000⟩ (by decide) (by decide) (by decide)

/-- C6 (code bug): the source has no `grams > 0` validation — a consume
request with negative grams passes the `quantity_grams < consumed_grams`
gate, succeeds, and increases the stock.  Evaluating the code on a
material at 5000 g: consume(−100 g) returns 5100 g, stores 5100 g, and
logs consumed_grams = −100, contradicting both "grams must be > 0" and
"a consume call never increases a material's stock". -/
theorem claim_consume_nonpositive_bug :
    log_usage dbSample "Epoxy-A" (-100) 10 "Bob" =
      .ok (5100,
        ⟨[⟨1, "Epoxy-A", 1, 1, 10⟩], [⟨1, 5100⟩],
         [⟨1, 1, 1, -100, "Bob", 10⟩], 2, 2⟩) ∧
      (5000 : ℚ) < 5100 := by
  constructor
  · norm_num [log_usage, findPowder, findInventory, setInventory, dbSample]
  · norm_num

/-- C7 (Uniqueness on creation): creating a powder whose name is already
registered fails — the insert is rejected by the `unique=True`
constraint, embedded as `DuplicateName` — and the committed database,
including the existing material's id, stock and logs, is unchanged. -/
theorem claim_duplicate_name (db : DB) (name : String) (d f g : ℚ)
    (hdup : ∃ p ∈ db.powders, p.name = name) :
    create_powder db name d f g = .error .DuplicateName ∧
      applyOp db (.create name d f g) = db := by
  have hany : db.powders.any (fun p => p.name == name) = true := by
    obtain ⟨p, hp, hname⟩ := hdup
    exact List.any_eq_true.mpr ⟨p, hp, by simpa using hname⟩
  have herr : create_powder db name d f g = .error .DuplicateName := by
    unfold create_powder
    rw [if_pos hany]
  exact ⟨herr, by simp [applyOp, herr]⟩

/-- Witness for C7: re-creating "Epoxy-A" fails and changes nothing. -/
theorem claim_duplicate_name_witness :
    create_powder dbSample "Epoxy-A" 2 2 2 = .error .DuplicateName ∧
      applyOp dbSample (.create "Epoxy-A" 2 2 2) = dbSample :=
  claim_duplicate_name dbSample "Epoxy-A" 2 2 2 (by decide)

/-- C8 (Log ordering): on every reachable state, GET /logs/ returns
entries strictly sorted by creation time descending (newest first), at
most `limit` of them, and raising the limit only extends the list — the
`limit`-result is the truncation of any longer-limit result.  The read
is pure by construction: `get_logs` maps a state to a list and returns
no successor state. -/
theorem claim_recent_logs (ops : List Op) (limit k : Nat) :
    ((get_logs (runOps initDB ops) limit).Pairwise
        (fun a b => b.timestamp < a.timestamp))
    ∧ (get_logs (runOps initDB ops) limit).length ≤ limit
    ∧ get_logs (runOps initDB ops) limit =
        (get_logs (runOps initDB ops) (limit + k)).take limit := by
  have wf := WF_runOps ops
  have hasc := joinedLogs_pairwise wf.ts_sorted
  have hsort := sortLogsDesc_of_sorted hasc
  refine ⟨?_, ?_, ?_⟩
  · unfold get_logs
    refine List.Pairwise.sublist (List.take_sublist _ _) ?_
    rw [hsort]
    exact List.pairwise_reverse.mpr hasc
  · exact List.length_take_le _ _
  · unfold get_logs
    rw [List.take_take, Nat.min_eq_left (Nat.le_add_right _ _)]

/-- Counterexample to C10 as stated: on a registered material whose
StockEntry row is absent, adjust can still fail — a negative delta is
rejected with `InvalidResult` (current quantity is treated as 0), so
"adjust does not fail" is false for that state. -/
theorem claim_adjust_missing_inventory_cex :
    (findPowder dbNoInv "A").isSome = true ∧
      findInventory dbNoInv 1 = none ∧
      adjust_stock dbNoInv "A" (-1) "Carol" "oops" = .error .InvalidResult := by
  refine ⟨rfl, rfl, ?_⟩
  norm_num [adjust_stock, currentQty, findPowder, findInventory, dbNoInv]

/-- C10 as amended: adjust fails with `NotFound` exactly when the name
is not registered; when the material exists but its StockEntry row is
absent, the current quantity is treated as 0, so the call fails with
`InvalidResult` exactly when the delta is negative, and otherwise
succeeds, creating the missing StockEntry at the delta within the same
operation. -/
theorem claim_adjust_notfound (db : DB) (n oper c : String) (Δ : ℚ) :
    (adjust_stock db n Δ oper c = .error .NotFound ↔ findPowder db n = none)
    ∧ (∀ p, findPowder db n = some p → findInventory db p.id = none →
        (Δ < 0 → adjust_stock db n Δ oper c = .error .InvalidResult)
        ∧ (0 ≤ Δ → adjust_stock db n Δ oper c =
            .ok (Δ,
              { db with
                inventory := setInventory db.inventory p.id Δ
                usage_log := db.usage_log ++
                  [⟨db.next_log_id, db.next_log_id, p.id, -Δ, oper, 0⟩]
                next_log_id := db.next_log_id + 1 }))) := by
  constructor
  · constructor
    · intro h
      cases hfp : findPowder db n with
      | none => rfl
      | some p =>
        exfalso
        unfold adjust_stock at h
        rw [hfp] at h
        simp only [] at h
        split at h
        · cases h
        · cases h
    · intro h
      unfold adjust_stock
      rw [h]
  · intro p hfp hfi
    have hcur : currentQty db p.id + Δ = Δ := by
      rw [currentQty, hfi, zero_add]
    constructor
    · intro hneg
      unfold adjust_stock
      rw [hfp]
      simp only []
      rw [hcur, if_pos hneg]
    · intro hnn
      unfold adjust_stock
      rw [hfp]
      simp only []
      rw [hcur, if_neg (not_lt.mpr hnn)]

/-- Witness for the amended C10: on the inventory-less state, a +3 g
adjust succeeds, returns 3, and creates the StockEntry at 3 g. -/
theorem claim_adjust_notfound_witness :
    adjust_stock dbNoInv "A" 3 "Bob" "" =
      .ok (3,
        { dbNoInv with
          inventory := setInventory dbNoInv.inventory 1 3
          usage_log := dbNoInv.usage_log ++ [⟨1, 1, 1, -3, "Bob", 0⟩]
          next_log_id := 2 }) :=
  ((claim_adjust_notfound dbNoInv "A" "Bob" "" 3).2 ⟨1, "A", 1, 1, 1⟩ rfl rfl).2
    (by decide)

/-! ### GET /stats/summary/ -/

theorem lookupTotal_nil (nm : String) : lookupTotal [] nm = 0 := rfl

theorem lookupTotal_cons_pos {n nm : String} {t : ℚ} {rest : List (String × ℚ)}
    (h : n = nm) : lookupTotal ((n, t) :: rest) nm = t := by
  unfold lookupTotal
  rw [List.find?_cons_of_pos _ (by simpa using h)]

theorem lookupTotal_cons_neg {n nm : String} {t : ℚ} {rest : List (String × ℚ)}
    (h : n ≠ nm) : lookupTotal ((n, t) :: rest) nm = lookupTotal rest nm := by
  unfold lookupTotal
  rw [List.find?_cons_of_neg _ (by simpa using h)]

theorem lookupTotal_addToSummary (s : List (String × ℚ)) (name : String) (g : ℚ)
    (nm : String) :
    lookupTotal (addToSummary s name g) nm =
      lookupTotal s nm + (if name = nm then g else 0) := by
  induction s with
  | nil =>
    show lookupTotal [(name, g)] nm = lookupTotal [] nm + _
    by_cases h : name = nm
    · rw [lookupTotal_cons_pos h, lookupTotal_nil, if_pos h, zero_add]
    · rw [lookupTotal_cons_neg h, lookupTotal_nil, if_neg h, zero_add]
  | cons e rest ih =>
    obtain ⟨n, t⟩ := e
    by_cases h1 : n = name
    · rw [show addToSummary ((n, t) :: rest) name g = (n, t + g) :: rest by
        simp [addToSummary, h1]]
      by_cases h2 : n = nm
      · rw [lookupTotal_cons_pos h2, lookupTotal_cons_pos h2,
          if_pos (h1 ▸ h2)]
      · rw [lookupTotal_cons_neg h2, lookupTotal_cons_neg h2,
          if_neg (fun hh => h2 (h1.symm ▸ hh)), add_zero]
    · rw [show addToSummary ((n, t) :: rest) name g =
          (n, t) :: addToSummary rest name g by simp [addToSummary, h1]]
      by_cases h2 : n = nm
      · rw [lookupTotal_cons_pos h2, lookupTotal_cons_pos h2,
          if_neg (fun hh => h1 (h2.trans hh.symm)), add_zero]
      · rw [lookupTotal_cons_neg h2, lookupTotal_cons_neg h2, ih]

theorem get_summary_go (db : DB) (logs : List DBUsageLog)
    (s0 : List (String × ℚ))
    (h : ∀ l ∈ logs, ∃ p ∈ db.powders, p.id = l.powder_id) :
    ∃ s', logs.foldl
        (fun acc log =>
          match acc with
          | none => none
          | some s =>
            match db.powders.find? (fun p => p.id == log.powder_id) with
            | none => none
            | some p => some (addToSummary s p.name log.consumed_grams))
        (some s0) = some s' ∧
      ∀ nm, lookupTotal s' nm = lookupTotal s0 nm +
        (logs.map (fun log =>
          match db.powders.find? (fun p => p.id == log.powder_id) with
          | none => 0
          | some p => if p.name = nm then log.consumed_grams else 0)).sum := by
  induction logs generalizing s0 with
  | nil => exact ⟨s0, rfl, fun nm => by simp⟩
  | cons l rest ih =>
    obtain ⟨p0, hp0, hp0id⟩ := h l (List.mem_cons_self _ _)
    have hsome : (db.powders.find? (fun p => p.id == l.powder_id)).isSome := by
      rw [List.find?_isSome]
      exact ⟨p0, hp0, by simpa using hp0id⟩
    obtain ⟨p1, hp1⟩ := Option.isSome_iff_exists.mp hsome
    rw [List.foldl_cons]
    obtain ⟨s', hs', hsum⟩ :=
      ih (addToSummary s0 p1.name l.consumed_grams)
        (fun x hx => h x (List.mem_cons_of_mem _ hx))
    refine ⟨s', ?_, ?_⟩
    · rw [← hs']
      congr 1
      simp only [hp1]
    · intro nm
      rw [hsum nm, lookupTotal_addToSummary, List.map_cons, List.sum_cons]
      simp only [hp1]
      ring

/-- Counterexample to C9 as stated: after create → consume → delete, the
log still holds an entry, but `get_summary` hits the dangling
`log.powder` relationship (`None.name`, an AttributeError) instead of
returning a mapping — so "for every state, summary() returns a mapping"
is false on this reachable state. -/
theorem claim_summary_cex :
    (runOps initDB
        [.create "A" 1 1 10, .consume "A" 100 30 "Bob", .delete "A"]).usage_log
      ≠ [] ∧
    get_summary (runOps initDB
        [.create "A" 1 1 10, .consume "A" 100 30 "Bob", .delete "A"]) = none := by
  have hdb : runOps initDB
      [.create "A" 1 1 10, .consume "A" 100 30 "Bob", .delete "A"] =
      ⟨[], [], [⟨1, 1, 1, 100, "Bob", 30⟩], 2, 2⟩ := by
    norm_num [runOps, applyOp, create_powder, log_usage, delete_powder,
      findPowder, findInventory, setInventory, initDB, List.erase_cons]
  rw [hdb]
  exact ⟨by simp, rfl⟩

/-- C9 as amended: on every state in which each log entry's material is
still registered, `get_summary` returns the mapping that assigns to each
material name its total signed consumption, recomputed from the log; on
states with a dangling log entry it fails instead (see the
counterexample).  The read is pure by construction: `get_summary` maps a
state to a result and returns no successor state. -/
theorem claim_summary (db : DB)
    (h : ∀ l ∈ db.usage_log, ∃ p ∈ db.powders, p.id = l.powder_id) :
    ∃ s, get_summary db = some s ∧
      ∀ nm, lookupTotal s nm = spec_total_consumed db nm := by
  obtain ⟨s', hs', hsum⟩ := get_summary_go db db.usage_log [] h
  refine ⟨s', hs', ?_⟩
  intro nm
  rw [hsum nm, lookupTotal_nil, zero_add, spec_total_consumed]

/-- Witness for the amended C9 on `dbLogged`. -/
theorem claim_summary_witness :
    ∃ s, get_summary dbLogged = some s ∧
      ∀ nm, lookupTotal s nm = spec_total_consumed dbLogged nm :=
  claim_summary dbLogged (by decide)
